import Mathlib

/-!
Verification of the IB_Trade ETF rebalancer core against its specification.

This file gives a shallow embedding, over exact rational arithmetic, of the
pure core of the `ibkr_etf_rebalancer` package:

* `util.py`           (basis-point helpers)
* `pricing.py`        (quotes and the staleness predicate)
* `fx_engine.py`      (FX market hours and `plan_fx_if_needed`)
* `account_state.py`  (`compute_account_state`)
* `target_blender.py` (`blend_targets`)
* `rebalance_engine.py` (`generate_orders`)
* `limit_pricer.py`   (tick rounding, `price_limit_buy` and friends)
* `order_builder.py`  (`build_fx_order`)
* `order_executor.py` (the keyword surface of `execute_orders`)

Modelling conventions, used throughout:

* Python floats are modelled as rationals; the built-in `round` (banker`s
  rounding, half-to-even) is modelled exactly by `pyRoundInt`/`pyRound`.
* Python exceptions are modelled by `Except String`; a branch that raises
  becomes `.error msg`.  Division of a float by exactly `0.0` raises
  `ZeroDivisionError` in Python, so the embedding guards each such division
  with an explicit zero test that returns `.error`.
* Python dicts are modelled as association lists in insertion order with
  distinct keys; `dict.get(k, d)` becomes `lookupD`, `d[k] = v` with a fresh
  key becomes list `cons`/append, and a `defaultdict` accumulation becomes
  `dictAdd`.
* Human-readable reason strings that are produced with float interpolation
  (for example `notional 12.00 below min_order 500.00`) are modelled by
  inductive types (`DropReason`, `FxReason`) carrying the interpolated
  numbers, so that reasons stay exactly distinguishable without modelling
  the decimal formatting of floats.
* `float("nan")`/`float("inf")` inputs are outside the rational model; the
  non-finiteness guards of the source (for example in `_round_to_tick`) are
  therefore dead branches here and are noted where they occur.
-/

namespace IBTrade

/-! ### Python rounding

`pyRoundInt` is the built-in `round(x)` of Python on exact values: round to
the nearest integer, ties to the even integer.  `pyRound x d` is
`round(x, d)`. -/

def pyRoundInt (x : ℚ) : ℤ :=
  if x - ⌊x⌋ < 1/2 then ⌊x⌋
  else if (1:ℚ)/2 < x - ⌊x⌋ then ⌊x⌋ + 1
  else if ⌊x⌋ % 2 = 0 then ⌊x⌋ else ⌊x⌋ + 1

def pyRound (x : ℚ) (d : ℕ) : ℚ :=
  (pyRoundInt (x * 10 ^ d) : ℚ) / 10 ^ d

theorem pyRoundInt_le (x : ℚ) : (pyRoundInt x : ℚ) ≤ x + 1/2 := by
  unfold pyRoundInt
  have hfl : (⌊x⌋ : ℚ) ≤ x := Int.floor_le x
  have hfr : x - 1 < (⌊x⌋ : ℚ) := by
    have := Int.lt_floor_add_one x; linarith
  split
  · linarith
  · split
    · push_cast; linarith
    · split
      · linarith
      · push_cast
        rename_i h1 h2 _
        have : x - (⌊x⌋ : ℚ) = 1/2 := le_antisymm (not_lt.mp h2) (not_lt.mp h1)
        linarith

theorem le_pyRoundInt (x : ℚ) : x - 1/2 ≤ (pyRoundInt x : ℚ) := by
  unfold pyRoundInt
  have hfl : (⌊x⌋ : ℚ) ≤ x := Int.floor_le x
  have hfr : x - 1 < (⌊x⌋ : ℚ) := by
    have := Int.lt_floor_add_one x; linarith
  split
  · rename_i h; linarith
  · split
    · push_cast; linarith
    · split
      · rename_i h1 h2 _
        have : x - (⌊x⌋ : ℚ) = 1/2 := le_antisymm (not_lt.mp h2) (not_lt.mp h1)
        linarith
      · push_cast; linarith

theorem pyRound_le (x : ℚ) (d : ℕ) : pyRound x d ≤ x + 1 / (2 * 10 ^ d) := by
  unfold pyRound
  have hpow : (0:ℚ) < 10 ^ d := by positivity
  have h := pyRoundInt_le (x * 10 ^ d)
  rw [div_le_iff₀ hpow]
  have : (x + 1 / (2 * 10 ^ d)) * 10 ^ d = x * 10 ^ d + 1/2 := by
    field_simp; ring
  rw [this]; exact h

theorem le_pyRound (x : ℚ) (d : ℕ) : x - 1 / (2 * 10 ^ d) ≤ pyRound x d := by
  unfold pyRound
  have hpow : (0:ℚ) < 10 ^ d := by positivity
  have h := le_pyRoundInt (x * 10 ^ d)
  rw [le_div_iff₀ hpow]
  have : (x - 1 / (2 * 10 ^ d)) * 10 ^ d = x * 10 ^ d - 1/2 := by
    field_simp; ring
  rw [this]; exact h

/-! ### `util.py` -/

/-- Embeds `util.to_bps`: convert a fraction to basis points. -/
def to_bps (fraction : ℚ) : ℚ := fraction * 10000

/-- Embeds `util.from_bps`: convert basis points to a fraction. -/
def from_bps (bps : ℚ) : ℚ := bps / 10000

/-! ### Association lists standing for Python dicts -/

/-- Dict `d[k]` lookup on an association list (first match). -/
def alookup (l : List (String × ℚ)) (k : String) : Option ℚ :=
  match l with
  | [] => none
  | (k1, v) :: rest => if k1 = k then some v else alookup rest k

/-- Dict `d.get(k, default)`. -/
def lookupD (l : List (String × ℚ)) (k : String) (d : ℚ) : ℚ :=
  (alookup l k).getD d

/-- Models `defaultdict(float)` accumulation `d[k] += v`: add into an existing
entry in place, or append a new entry at the end. -/
def dictAdd (l : List (String × ℚ)) (k : String) (v : ℚ) : List (String × ℚ) :=
  match l with
  | [] => [(k, v)]
  | (k1, v1) :: rest =>
      if k1 = k then (k1, v1 + v) :: rest else (k1, v1) :: dictAdd rest k v

theorem alookup_eq_some_of_mem {l : List (String × ℚ)} {s : String} {v : ℚ}
    (hmem : (s, v) ∈ l) (hnd : (l.map Prod.fst).Nodup) : alookup l s = some v := by
  induction l with
  | nil => cases hmem
  | cons hd tl ih =>
      obtain ⟨k1, v1⟩ := hd
      simp only [List.map_cons, List.nodup_cons] at hnd
      rcases List.mem_cons.mp hmem with heq | htl
      · cases heq; simp [alookup]
      · have hne : k1 ≠ s := by
          intro h; subst h
          exact hnd.1 (List.mem_map.mpr ⟨(k1, v), htl, rfl⟩)
        simp [alookup, hne, ih htl hnd.2]

theorem keys_dictAdd (l : List (String × ℚ)) (k : String) (v : ℚ) :
    ((dictAdd l k v).map Prod.fst) = l.map Prod.fst ∨
    ((dictAdd l k v).map Prod.fst) = l.map Prod.fst ++ [k] := by
  induction l with
  | nil => right; simp [dictAdd]
  | cons hd tl ih =>
      obtain ⟨k1, v1⟩ := hd
      by_cases h : k1 = k
      · left; simp [dictAdd, h]
      · rcases ih with h1 | h1
        · left; simp [dictAdd, h, h1]
        · right; simp [dictAdd, h, h1]

theorem nodup_keys_dictAdd {l : List (String × ℚ)} (k : String) (v : ℚ)
    (hnd : (l.map Prod.fst).Nodup) : ((dictAdd l k v).map Prod.fst).Nodup := by
  induction l with
  | nil => simp [dictAdd]
  | cons hd tl ih =>
      obtain ⟨k1, v1⟩ := hd
      simp only [List.map_cons, List.nodup_cons] at hnd
      by_cases h : k1 = k
      · subst h
        simp only [dictAdd, if_pos rfl, List.map_cons, List.nodup_cons, if_true,
          eq_self_iff_true]
        exact ⟨hnd.1, hnd.2⟩
      · simp only [dictAdd, if_neg h, List.map_cons, List.nodup_cons]
        refine ⟨?_, ih hnd.2⟩
        rcases keys_dictAdd tl k v with h1 | h1
        · rw [h1]; exact hnd.1
        · rw [h1]; intro hk
          rcases List.mem_append.mp hk with hk | hk
          · exact hnd.1 hk
          · simp only [List.mem_singleton] at hk; exact h hk

/-! ### Sorting by symbol (Python `sorted` on dict items with distinct keys) -/

def keyLE (a b : String × ℚ) : Prop := a.1 ≤ b.1

instance : DecidableRel keyLE := fun a b => inferInstanceAs (Decidable (a.1 ≤ b.1))

instance : IsTotal (String × ℚ) keyLE := ⟨fun a b => le_total a.1 b.1⟩

instance : IsTrans (String × ℚ) keyLE := ⟨fun _ _ _ h1 h2 => le_trans h1 h2⟩

/-- Models `sorted(d.items())` for a dict (distinct keys, so key order decides). -/
def sortByKey (l : List (String × ℚ)) : List (String × ℚ) :=
  List.insertionSort keyLE l

theorem sortByKey_perm (l : List (String × ℚ)) : List.Perm (sortByKey l) l :=
  List.perm_insertionSort keyLE l

theorem sortByKey_sorted (l : List (String × ℚ)) :
    (sortByKey l).Pairwise keyLE :=
  List.sorted_insertionSort keyLE l

theorem sortByKey_strict {l : List (String × ℚ)} (hnd : (l.map Prod.fst).Nodup) :
    (sortByKey l).Pairwise (fun a b => a.1 < b.1) := by
  have hperm : List.Perm ((sortByKey l).map Prod.fst) (l.map Prod.fst) :=
    (sortByKey_perm l).map Prod.fst
  have hnd2 : ((sortByKey l).map Prod.fst).Nodup := hperm.nodup_iff.mpr hnd
  have hne : (sortByKey l).Pairwise (fun a b => a.1 ≠ b.1) :=
    List.pairwise_map.mp hnd2
  have hle := sortByKey_sorted l
  exact (hle.and hne).imp (fun h => lt_of_le_of_ne h.1 h.2)


instance {e a : Type} [DecidableEq e] [DecidableEq a] : DecidableEq (Except e a) := fun x y =>
  match x, y with
  | .ok v, .ok w =>
      if h : v = w then isTrue (by rw [h]) else isFalse (by intro hc; cases hc; exact h rfl)
  | .error v, .error w =>
      if h : v = w then isTrue (by rw [h]) else isFalse (by intro hc; cases hc; exact h rfl)
  | .ok _, .error _ => isFalse (by intro hc; cases hc)
  | .error _, .ok _ => isFalse (by intro hc; cases hc)

/-! ### `pricing.py` -/

/-- Embeds `pricing.Quote`: a market quote.  The timestamp `ts` is seconds on an
absolute time axis (datetime subtraction in the source yields seconds). -/
structure Quote where
  bid : Option ℚ
  ask : Option ℚ
  ts : ℚ
  last : Option ℚ
deriving DecidableEq

/-- Embeds `pricing.is_stale`: true when the quote is strictly older than
`stale_quote_seconds` (the source compares with `>`). -/
def is_stale (q : Quote) (now staleSeconds : ℚ) : Bool :=
  decide (staleSeconds < now - q.ts)

/-! ### `fx_engine.py` -/

inductive Side where
  | BUY
  | SELL
deriving DecidableEq

inductive OrdType where
  | MKT
  | LMT
deriving DecidableEq

inductive ConvertMode where
  | just_in_time
  | always_top_up
deriving DecidableEq

/-- The `reason` strings produced by `plan_fx_if_needed` and
`plan_rebalance_with_fx`, as an inductive type; constructors carry the
numbers the source interpolates into the message. -/
inductive FxReason where
  | fxDisabled
  | sufficientUsdCash
  | outsideMarketHours
  | noUsdShortfall
  | noFundingCash (ccy : String)
  | shortfallBelowMin (buffered minFx : ℚ)
  | noFxQuote
  | staleFxQuote
  | incompleteFxQuote
  | insufficientFundingCash (ccy : String)
  | fundShortfall (shortfall bufferBps : ℚ)
deriving DecidableEq

/-- Embeds `config.FXConfig`.  The last three fields (`max_fx_order_usd`,
`stale_quote_seconds`, `market_holidays`) are read by `fx_engine.py` via
attribute access and set by the tests, although `config.py` does not declare
them on the pydantic model; they are modelled as plain fields here. -/
structure FXConfig where
  enabled : Bool
  base_currency : String
  funding_currencies : List String
  convert_mode : ConvertMode
  use_mid_for_planning : Bool
  min_fx_order_usd : ℚ
  fx_buffer_bps : ℚ
  order_type : OrdType
  limit_slippage_bps : ℚ
  route : String
  wait_for_fill_seconds : ℤ
  prefer_market_hours : Bool
  max_fx_order_usd : Option ℚ
  stale_quote_seconds : ℚ
  market_holidays : List ℤ
deriving DecidableEq

/-- Embeds `fx_engine.FxPlan`. -/
structure FxPlan where
  need_fx : Bool
  pair : String
  side : Side
  usd_notional : ℚ
  est_rate : ℚ
  qty : ℚ
  order_type : OrdType
  limit_price : Option ℚ
  route : String
  wait_for_fill_seconds : ℤ
  reason : FxReason
deriving DecidableEq

/-- The result of `ts.astimezone(ZoneInfo("America/New_York"))` in
`_is_fx_market_open`: the wall-clock rendering of the instant in New York
local time.  The zoneinfo conversion itself (DST handling) is library code
outside this embedding; the converted local time is taken as input.
`weekday` follows Python (`0` = Monday .. `6` = Sunday); `dateOrd` is the
proleptic ordinal of the local calendar date, used for holiday lookups. -/
structure NYTime where
  weekday : ℤ
  hour : ℤ
  minute : ℤ
  second : ℤ
  dateOrd : ℤ
deriving DecidableEq

/-- Python tuple comparison `(hour, minute, second) < (17, 0, 0)`. -/
def hmsBefore17 (ny : NYTime) : Bool :=
  decide (ny.hour < 17 ∨ (ny.hour = 17 ∧ (ny.minute < 0 ∨ (ny.minute = 0 ∧ ny.second < 0))))

/-- The weekday/time-of-day portion of `_is_fx_market_open`: Monday through
Thursday open, Friday until 17:00, Saturday closed, Sunday from 17:00. -/
def fxWindowOpen (ny : NYTime) : Bool :=
  if ny.weekday < 4 then true
  else if ny.weekday = 4 then hmsBefore17 ny
  else if ny.weekday = 5 then false
  else !(hmsBefore17 ny)

/-- Embeds `fx_engine._is_fx_market_open`: holiday check first (`holidays and
ny.date() in set(holidays)`), then the weekday window. -/
def isFxMarketOpen (ny : NYTime) (holidays : List ℤ) : Bool :=
  if ¬ holidays.isEmpty ∧ ny.dateOrd ∈ holidays then false else fxWindowOpen ny

/-- The no-conversion `FxPlan` literal that `plan_fx_if_needed` returns on
each short-circuit branch. -/
def noFxPlan (pair : String) (side : Side) (cfg : FXConfig) (reason : FxReason) : FxPlan :=
  { need_fx := false, pair := pair, side := side, usd_notional := 0, est_rate := 0,
    qty := 0, order_type := cfg.order_type, limit_price := none, route := cfg.route,
    wait_for_fill_seconds := cfg.wait_for_fill_seconds, reason := reason }

/-- The tail of `plan_fx_if_needed` after the estimated rate is determined:
round the rate, cap the notional by purchasable funding cash, round the
quantity, and attach a limit price for LMT plans.  A zero rounded rate makes
the Python division `funding_cash / est_rate` raise `ZeroDivisionError`. -/
def planFxTail (pair : String) (side : Side) (fc : String) (cfg : FXConfig)
    (funding_cash shortfall usd_notional est_rate0 mid : ℚ) : Except String FxPlan :=
  let est_rate := pyRound est_rate0 4
  if est_rate = 0 then .error "ZeroDivisionError"
  else
    let max_usd := funding_cash / est_rate
    if max_usd < cfg.min_fx_order_usd then
      .ok (noFxPlan pair side cfg (.insufficientFundingCash fc))
    else
      let capped := min usd_notional max_usd
      let qty := pyRound capped 2
      let limit_price : Option ℚ :=
        if cfg.order_type = .LMT then
          some (pyRound (mid + mid * from_bps cfg.limit_slippage_bps) 4)
        else none
      .ok { need_fx := true, pair := pair, side := side, usd_notional := qty,
            est_rate := est_rate, qty := qty, order_type := cfg.order_type,
            limit_price := limit_price, route := cfg.route,
            wait_for_fill_seconds := cfg.wait_for_fill_seconds,
            reason := .fundShortfall shortfall cfg.fx_buffer_bps }

/-- Embeds `fx_engine.plan_fx_if_needed`.  `now` is the instant used for quote
staleness; `nyNow` is the same instant rendered in New York local time (see
`NYTime`).  The local variable `side` is the literal `BUY` throughout the
source, so the dead `SELL` alternatives of the source are not represented. -/
def planFxIfNeeded (usd_needed usd_cash funding_cash : ℚ) (fx_quote : Option Quote)
    (cfg : FXConfig) (fx_price : Option ℚ) (funding_currency : String)
    (now : ℚ) (nyNow : NYTime) : Except String FxPlan :=
  let fc := funding_currency.toUpper
  let pair := cfg.base_currency ++ "." ++ fc
  let side := Side.BUY
  if cfg.prefer_market_hours = true ∧ isFxMarketOpen nyNow cfg.market_holidays = false then
    .ok (noFxPlan pair side cfg .outsideMarketHours)
  else
    let shortfall := max 0 (usd_needed - usd_cash)
    if shortfall = 0 then .ok (noFxPlan pair side cfg .noUsdShortfall)
    else if funding_cash ≤ 0 then .ok (noFxPlan pair side cfg (.noFundingCash fc))
    else
      let buffered := shortfall * (1 + from_bps cfg.fx_buffer_bps)
      if buffered < cfg.min_fx_order_usd then
        .ok (noFxPlan pair side cfg (.shortfallBelowMin buffered cfg.min_fx_order_usd))
      else
        let usd_notional :=
          match cfg.max_fx_order_usd with
          | some m => min buffered m
          | none => buffered
        match fx_price with
        | none =>
            match fx_quote with
            | none => .ok (noFxPlan pair side cfg .noFxQuote)
            | some q =>
                if is_stale q now cfg.stale_quote_seconds then
                  .ok (noFxPlan pair side cfg .staleFxQuote)
                else
                  match q.bid, q.ask with
                  | some b, some a =>
                      let m := (b + a) / 2
                      let est_rate := if cfg.use_mid_for_planning then m else a
                      planFxTail pair side fc cfg funding_cash shortfall usd_notional est_rate m
                  | _, _ => .ok (noFxPlan pair side cfg .incompleteFxQuote)
        | some p =>
            let m :=
              match fx_quote with
              | some q =>
                  match q.bid, q.ask with
                  | some b, some a => (b + a) / 2
                  | _, _ => p
              | none => p
            planFxTail pair side fc cfg funding_cash shortfall usd_notional p m


/-! ### `account_state.py` -/

/-- Embeds `account_state.AccountSnapshot`. -/
structure AccountSnapshot where
  market_values : List (String × ℚ)
  weights : List (String × ℚ)
  cash_by_currency : List (String × ℚ)
  usd_cash : ℚ
  cad_cash : ℚ
  gross_exposure : ℚ
  net_exposure : ℚ
  total_equity : ℚ
  effective_equity : ℚ
deriving DecidableEq

/-- The validation loop of `compute_account_state`: reject zero quantities,
missing prices, and non-positive prices (the `math.isnan` guard has no
rational counterpart), and accumulate per-symbol market values together with
the net and gross position values. -/
def validatePositions (prices : List (String × ℚ)) :
    List (String × ℚ) → Except String (List (String × ℚ) × ℚ × ℚ)
  | [] => .ok ([], 0, 0)
  | (s, qty) :: rest =>
      if qty = 0 then .error "Zero quantity not allowed"
      else
        match alookup prices s with
        | none => .error ("Missing price for " ++ s)
        | some price =>
            if price ≤ 0 then .error ("Invalid price for " ++ s)
            else do
              let (mv, n, g) ← validatePositions prices rest
              .ok ((s, qty * price) :: mv, qty * price + n, |qty * price| + g)

/-- Embeds `account_state.compute_account_state`. -/
def computeAccountState (positions prices cash_balances : List (String × ℚ))
    (cash_buffer_pct : ℚ) : Except String AccountSnapshot := do
  let usd_cash := lookupD cash_balances "USD" 0
  let cad_cash := lookupD cash_balances "CAD" 0
  let (market_values, net_pos_val, gross_pos_val) ← validatePositions prices positions
  let total_equity := net_pos_val + usd_cash
  let effective_usd_cash := usd_cash * (1 - cash_buffer_pct)
  let effective_equity := net_pos_val + effective_usd_cash
  if effective_equity ≤ 0 then .error "Account has zero equity"
  else
    let sortedMv := sortByKey market_values
    let weights :=
      (sortedMv.map fun p => (p.1, p.2 / effective_equity)) ++
        [("CASH", effective_usd_cash / effective_equity)]
    .ok { market_values := sortedMv, weights := weights,
          cash_by_currency := sortByKey cash_balances,
          usd_cash := usd_cash, cad_cash := cad_cash,
          gross_exposure := gross_pos_val / effective_equity,
          net_exposure := (net_pos_val + effective_usd_cash) / effective_equity,
          total_equity := total_equity, effective_equity := effective_equity }

/-! ### `target_blender.py` -/

/-- Embeds `config.ModelsConfig`: the three model mix weights. -/
structure ModelsConfig where
  SMURF : ℚ
  BADASS : ℚ
  GLTR : ℚ
deriving DecidableEq

/-- Embeds `target_blender.BlendResult`. -/
structure BlendResult where
  weights : List (String × ℚ)
  gross_exposure : ℚ
  net_exposure : ℚ
deriving DecidableEq

/-- One model of the accumulation loop in `blend_targets`: fold the rows of
a single portfolio into the contributions dict with weight `mw`. -/
def accumulateModel (acc : List (String × ℚ)) (rows : List (String × ℚ)) (mw : ℚ) :
    List (String × ℚ) :=
  match rows with
  | [] => acc
  | (s, w) :: rest => accumulateModel (dictAdd acc s (w * mw)) rest mw

/-- The full contributions dict of `blend_targets`: SMURF, BADASS, GLTR in
source order; a missing portfolio contributes nothing
(`portfolios.get(model_name, \x7b\x7d)`). -/
def contributionsOf (portfolios : List (String × List (String × ℚ)))
    (models : ModelsConfig) : List (String × ℚ) :=
  let get := fun n => ((portfolios.find? fun p => p.1 = n).map Prod.snd).getD []
  accumulateModel
    (accumulateModel
      (accumulateModel [] (get "SMURF") models.SMURF)
      (get "BADASS") models.BADASS)
    (get "GLTR") models.GLTR

/-- Embeds `target_blender.blend_targets`. -/
def blendTargets (portfolios : List (String × List (String × ℚ)))
    (models : ModelsConfig) : Except String BlendResult :=
  let contributions := contributionsOf portfolios models
  let net := (contributions.map Prod.snd).sum
  if net = 0 then .error "Combined portfolio has zero net exposure"
  else
    let normalized := contributions.map fun p => (p.1, p.2 / net)
    let gross := ((normalized.filter fun p => p.1 ≠ "CASH").map Prod.snd).sum
    let net2 := gross + lookupD normalized "CASH" 0
    let ordered := sortByKey normalized
    .ok { weights := ordered, gross_exposure := gross, net_exposure := net2 }

/-! ### `rebalance_engine.py` -/

/-- The `bands` argument of `generate_orders`: a single float or a
per-symbol mapping. -/
inductive Bands where
  | scalar (b : ℚ)
  | perSymbol (m : List (String × ℚ))
deriving DecidableEq

inductive TriggerMode where
  | per_holding
  | total_drift
deriving DecidableEq

/-- The messages recorded in `OrderPlan.dropped`, as a structured value: the
source formats `notional N below min_order M`. -/
inductive DropReason where
  | belowMinOrder (notional minOrder : ℚ)
deriving DecidableEq

/-- Embeds `rebalance_engine.OrderPlan`. -/
structure OrderPlan where
  orders : List (String × ℚ)
  dropped : List (String × DropReason)
deriving DecidableEq

/-- Embeds `rebalance_engine._get_band`. -/
def getBand (bands : Bands) (symbol : String) : ℚ :=
  match bands with
  | .perSymbol m => lookupD m symbol 0
  | .scalar b => b

/-- The trigger stage of `generate_orders`: per-symbol diffs over the union
of target and current symbols (`CASH` excluded), the outside-band subset,
and the actionable set under the two trigger modes.  The iteration order of
the Python `set` union is unspecified; the embedding fixes target keys
followed by current keys, deduplicated. -/
def actionableDiffs (targets current : List (String × ℚ)) (bands : Bands)
    (trigger_mode : TriggerMode) (portfolio_total_band_bps : ℚ) : List (String × ℚ) :=
  let symbols := ((targets.map Prod.fst) ++ (current.map Prod.fst)).dedup
  let diffs := symbols.filterMap fun s =>
    if s = "CASH" then none else some (s, lookupD targets s 0 - lookupD current s 0)
  let outside := diffs.filter fun sd => getBand bands sd.1 < |sd.2|
  if outside ≠ [] then outside
  else
    let total_drift_bps := pyRound ((diffs.map fun sd => |sd.2|).sum * 10000) 8
    if trigger_mode = .total_drift ∧ portfolio_total_band_bps < total_drift_bps then
      diffs.filter fun sd => sd.2 ≠ 0
    else []

/-- The first loop of `generate_orders`: convert actionable diffs to cent
notionals, dropping those below `min_order` with a reason. -/
def notionalOrders (total_equity min_order : ℚ) :
    List (String × ℚ) → List (String × ℚ) × List (String × DropReason)
  | [] => ([], [])
  | (s, d) :: rest =>
      let value := pyRound (d * total_equity) 2
      let r := notionalOrders total_equity min_order rest
      if |value| < min_order then (r.1, (s, .belowMinOrder |value| min_order) :: r.2)
      else ((s, value) :: r.1, r.2)

/-- The buy-scaling loop of `generate_orders`: multiply each buy by
`scale`, dropping scaled buys below `min_order` with a reason.  The
source also updates its running `cash` and `gross` here; both are dead
after this loop and are not modelled. -/
def scaleBuys (min_order scale : ℚ) :
    List (String × ℚ) → List (String × ℚ) × List (String × DropReason)
  | [] => ([], [])
  | (s, v) :: rest =>
      let scaled := v * scale
      let r := scaleBuys min_order scale rest
      if |scaled| < min_order then (r.1, (s, .belowMinOrder |scaled| min_order) :: r.2)
      else ((s, scaled) :: r.1, r.2)

/-- The body of the share-conversion loop for one symbol, given its
(non-zero) price: the rounded or raw share count, `none` when the loop
`continue`s (a rounded-to-zero order, or a sell with no sellable shares),
and the sell cap at the currently held shares. -/
def shareStep (current : List (String × ℚ)) (total_equity : ℚ)
    (allow_fractional : Bool) (s : String) (v price : ℚ) : Option ℚ :=
  let shares0 := v / price
  let shares : ℚ :=
    if allow_fractional then shares0
    else if 0 < shares0 then ((⌈shares0⌉ : ℤ) : ℚ) else ((⌊shares0⌋ : ℤ) : ℚ)
  if allow_fractional = false ∧ shares = 0 then none
  else if shares < 0 then
    let current_shares := lookupD current s 0 * total_equity / price
    let max_sell : ℚ :=
      if allow_fractional then current_shares else ((⌊current_shares⌋ : ℤ) : ℚ)
    if max_sell < |shares| then
      if 0 < max_sell then some (-max_sell) else none
    else some shares
  else some shares

/-- The share-conversion loop of `generate_orders`: divide each notional by
the symbol price (`prices[symbol]` raises `KeyError` when absent, and float
division by an exact zero price raises `ZeroDivisionError`), then apply
`shareStep` for the rounding, zero-skip, and sell-cap logic. -/
def toShares (current prices : List (String × ℚ)) (total_equity : ℚ)
    (allow_fractional : Bool) :
    List (String × ℚ) → Except String (List (String × ℚ))
  | [] => .ok []
  | (s, v) :: rest =>
      match alookup prices s with
      | none => .error ("KeyError: " ++ s)
      | some price =>
          if price = 0 then .error "ZeroDivisionError"
          else
            match shareStep current total_equity allow_fractional s v price with
            | none => toShares current prices total_equity allow_fractional rest
            | some sh =>
                match toShares current prices total_equity allow_fractional rest with
                | .error e => .error e
                | .ok r => .ok ((s, sh) :: r)

/-- The first stage of `generate_orders`: the actionable diffs turned into
cent notionals with their dropped entries. -/
def ordersValue (targets current : List (String × ℚ)) (E : ℚ) (bands : Bands)
    (mo : ℚ) (tm : TriggerMode) (ptb : ℚ) :
    List (String × ℚ) × List (String × DropReason) :=
  notionalOrders E mo (actionableDiffs targets current bands tm ptb)

/-- The dict `sells` of `generate_orders`: entries with negative value. -/
def sellsOf (ov : List (String × ℚ)) : List (String × ℚ) :=
  ov.filter fun p => p.2 < 0

/-- The dict `buys` of `generate_orders`: entries with positive value. -/
def buysOf (ov : List (String × ℚ)) : List (String × ℚ) :=
  ov.filter fun p => 0 < p.2

/-- The running `cash` of `generate_orders` after the sells loop:
`current.get("CASH", 0) * total_equity` minus each (negative) sell value. -/
def cashAfterSells (current : List (String × ℚ)) (E : ℚ)
    (ov : List (String × ℚ)) : ℚ :=
  lookupD current "CASH" 0 * E - ((sellsOf ov).map Prod.snd).sum

/-- The running `gross` of `generate_orders` after the sells loop: the sum
of non-CASH current exposures plus each (negative) sell value. -/
def grossAfterSells (current : List (String × ℚ)) (E : ℚ)
    (ov : List (String × ℚ)) : ℚ :=
  ((current.filter fun p => p.1 ≠ "CASH").map fun p => p.2 * E).sum +
    ((sellsOf ov).map Prod.snd).sum

/-- The buying capacity `available` of `generate_orders`:
`min(max_leverage * equity - gross - maint_buffer, cash - cash_buffer)`,
where the cash bound only applies when `cash_buffer_pct > 0` (the source
uses `float("inf")` otherwise, and `min x inf = x`). -/
def availableFunds (current : List (String × ℚ)) (E : ℚ)
    (ov : List (String × ℚ)) (ml cbp mbp : ℚ) : ℚ :=
  if 0 < cbp then
    min (ml * E - grossAfterSells current E ov - E * mbp / 100)
        (cashAfterSells current E ov - E * cbp / 100)
  else ml * E - grossAfterSells current E ov - E * mbp / 100

/-- The buy scaling factor of `generate_orders`:
`max(available, 0) / total_buy_value` when the buys exceed the capacity,
`1.0` otherwise. -/
def buyScale (current : List (String × ℚ)) (E : ℚ)
    (ov : List (String × ℚ)) (ml cbp mbp : ℚ) : ℚ :=
  let tb := ((buysOf ov).map Prod.snd).sum
  let av := availableFunds current E ov ml cbp mbp
  if av < tb ∧ 0 < tb then max av 0 / tb else 1

/-- Embeds `rebalance_engine.generate_orders`, as the composition of the stages
above.  The `trigger_mode` validation of the source vanishes into the
`TriggerMode` type. -/
def generateOrders (targets current prices : List (String × ℚ)) (total_equity : ℚ)
    (bands : Bands) (min_order max_leverage cash_buffer_pct maintenance_buffer_pct : ℚ)
    (allow_fractional : Bool) (trigger_mode : TriggerMode)
    (portfolio_total_band_bps : ℚ) : Except String OrderPlan :=
  let ovdr := ordersValue targets current total_equity bands min_order trigger_mode
    portfolio_total_band_bps
  if ovdr.1 = [] then .ok { orders := [], dropped := ovdr.2 }
  else
    let scale := buyScale current total_equity ovdr.1 max_leverage cash_buffer_pct
      maintenance_buffer_pct
    let sbdr := scaleBuys min_order scale (buysOf ovdr.1)
    let ov2 := sellsOf ovdr.1 ++ sbdr.1
    let dropped := ovdr.2 ++ sbdr.2
    if ov2 = [] then .ok { orders := [], dropped := dropped }
    else
      match toShares current prices total_equity allow_fractional ov2 with
      | .error e => .error e
      | .ok shares => .ok { orders := shares, dropped := dropped }

/-! ### `limit_pricer.py` -/

inductive LimitStyle where
  | spread_aware
  | static_bps
  | off
deriving DecidableEq

inductive EscalateAction where
  | cross
  | market
  | keep
deriving DecidableEq

/-- Embeds `config.LimitsConfig`. -/
structure LimitsConfig where
  smart_limit : Bool
  style : LimitStyle
  buy_offset_frac : ℚ
  sell_offset_frac : ℚ
  max_offset_bps : ℚ
  wide_spread_bps : ℚ
  escalate_action : EscalateAction
  stale_quote_seconds : ℚ
  use_ask_bid_cap : Bool
deriving DecidableEq

/-- The effective tick of the `_round_*_to_tick` helpers: `0.01` when the
supplied tick is non-positive (the non-finiteness guards of the source have
no rational counterpart). -/
def effectiveTick (tick : ℚ) : ℚ :=
  if tick ≤ 0 then 1/100 else tick

/-- Embeds `limit_pricer._round_to_tick`: `math.floor(price / tick + 0.5) * tick`
on the effective tick. -/
def roundToTick (price tick : ℚ) : ℚ :=
  ((⌊price / effectiveTick tick + 1/2⌋ : ℤ) : ℚ) * effectiveTick tick

/-- Embeds `limit_pricer._round_down_to_tick`. -/
def roundDownToTick (price tick : ℚ) : ℚ :=
  ((⌊price / effectiveTick tick⌋ : ℤ) : ℚ) * effectiveTick tick

/-- Embeds `limit_pricer._round_up_to_tick`. -/
def roundUpToTick (price tick : ℚ) : ℚ :=
  ((⌈price / effectiveTick tick⌉ : ℤ) : ℚ) * effectiveTick tick

/-- The escalation trigger shared by `price_limit_buy` and
`price_limit_sell`: wide spread or stale quote. -/
def wideOrStale (spread_bps : ℚ) (q : Quote) (now : ℚ) (cfg : LimitsConfig) : Bool :=
  decide (cfg.wide_spread_bps < spread_bps) || is_stale q now cfg.stale_quote_seconds

/-- Embeds `limit_pricer.price_limit_buy`.  `clamp(price, upper=u)` is `min`, and
`clamp(price, lower=l)` is `max`; the two-sided error branch of
`util.clamp` is unreachable from these call sites.  A mid of exactly zero
makes `spread / mid` raise `ZeroDivisionError` in the source. -/
def priceLimitBuy (q : Quote) (min_tick : ℚ) (cfg : LimitsConfig) (now : ℚ) :
    Except String (Option ℚ × OrdType) :=
  match q.bid, q.ask with
  | some bid, some ask =>
      let spread := ask - bid
      if spread ≤ 0 then .error "Quote ask must be greater than bid"
      else
        let mid := (bid + ask) / 2
        if mid = 0 then .error "ZeroDivisionError"
        else
          let spread_bps := to_bps (spread / mid)
          let price0 := mid + cfg.buy_offset_frac * spread
          let cap := mid * (1 + from_bps cfg.max_offset_bps)
          let price1 := min price0 cap
          let price2 := if cfg.use_ask_bid_cap then min price1 ask else price1
          let price3 := roundToTick price2 min_tick
          let price4 :=
            if cfg.use_ask_bid_cap ∧ ask < price3 then roundDownToTick ask min_tick
            else price3
          if wideOrStale spread_bps q now cfg then
            match cfg.escalate_action with
            | .cross =>
                let p0 := roundUpToTick ask min_tick
                let p1 :=
                  if cfg.use_ask_bid_cap then min p0 (roundDownToTick ask min_tick) else p0
                .ok (some p1, .LMT)
            | .market => .ok (none, .MKT)
            | .keep => .ok (some price4, .LMT)
          else .ok (some price4, .LMT)
  | _, _ => .error "Quote missing bid/ask"

/-- Embeds `limit_pricer.price_limit_sell` (mirror of the BUY side). -/
def priceLimitSell (q : Quote) (min_tick : ℚ) (cfg : LimitsConfig) (now : ℚ) :
    Except String (Option ℚ × OrdType) :=
  match q.bid, q.ask with
  | some bid, some ask =>
      let spread := ask - bid
      if spread ≤ 0 then .error "Quote ask must be greater than bid"
      else
        let mid := (bid + ask) / 2
        if mid = 0 then .error "ZeroDivisionError"
        else
          let spread_bps := to_bps (spread / mid)
          let price0 := mid - cfg.sell_offset_frac * spread
          let cap := mid * (1 - from_bps cfg.max_offset_bps)
          let price1 := max price0 cap
          let price2 := if cfg.use_ask_bid_cap then max price1 bid else price1
          let price3 := roundToTick price2 min_tick
          let price4 :=
            if cfg.use_ask_bid_cap ∧ price3 < bid then roundUpToTick bid min_tick
            else price3
          if wideOrStale spread_bps q now cfg then
            match cfg.escalate_action with
            | .cross =>
                let p0 := roundDownToTick bid min_tick
                let p1 :=
                  if cfg.use_ask_bid_cap then max p0 (roundUpToTick bid min_tick) else p0
                .ok (some p1, .LMT)
            | .market => .ok (none, .MKT)
            | .keep => .ok (some price4, .LMT)
          else .ok (some price4, .LMT)
  | _, _ => .error "Quote missing bid/ask"

/-- Embeds `limit_pricer.calc_limit_price`.  The provider lookup
`provider.get_quote(symbol)` is modelled by passing the quote it returns;
the `side.upper()` membership check vanishes into the `Side` type. -/
def calcLimitPrice (side : Side) (quote : Quote) (tick : ℚ) (now : ℚ)
    (cfg : LimitsConfig) : Except String (Option ℚ × OrdType) :=
  if cfg.smart_limit = false ∨ cfg.style ≠ .spread_aware then
    match quote.bid, quote.ask with
    | some bid, some ask =>
        if cfg.smart_limit = false ∨ cfg.style = .off then
          .ok (some (if side = .BUY then ask else bid), .LMT)
        else .error "Unsupported limit pricing style"
    | _, _ => .error "Quote missing bid/ask"
  else if side = .BUY then priceLimitBuy quote tick cfg now
  else priceLimitSell quote tick cfg now

/-! ### `order_builder.py` and the broker data model (`ibkr_provider.py`) -/

inductive RTH where
  | RTH_ONLY
  | ALL_HOURS
deriving DecidableEq

inductive TimeInForce where
  | DAY
  | GTC
deriving DecidableEq

inductive OrderRoute where
  | SMART
  | ISLAND
deriving DecidableEq

/-- Embeds `ibkr_provider.Contract`.  The frozen dataclass has no `min_tick`
attribute, but `order_builder` reads it with
`getattr(contract, "min_tick", default)`, so test doubles may carry one;
`none` models the attribute being absent or `None`. -/
structure Contract where
  symbol : String
  sec_type : String
  currency : String
  exchange : String
  min_tick : Option ℚ
deriving DecidableEq

/-- Embeds `ibkr_provider.Order`. -/
structure Order where
  contract : Contract
  side : Side
  quantity : ℚ
  order_type : OrdType
  tif : TimeInForce
  route : OrderRoute
  limit_price : Option ℚ
  rth : RTH
deriving DecidableEq

/-- The tick used by `build_fx_order`:
`getattr(contract, "min_tick", 0.0001) or 0.0001` - a missing, `None` or
zero (falsy) attribute falls back to `0.0001`. -/
def fxTick (contract : Contract) : ℚ :=
  match contract.min_tick with
  | none => 1/10000
  | some t => if t = 0 then 1/10000 else t

/-- Embeds `order_builder.build_fx_order`. -/
def buildFxOrder (fx_plan : FxPlan) (contract : Contract) (prefer_rth : Bool) :
    Except String Order :=
  let qty := pyRound fx_plan.qty 2
  if qty ≤ 0 then .error "fx quantity must be positive"
  else
    let order_type := if fx_plan.order_type = .LMT then OrdType.LMT else OrdType.MKT
    if order_type = .LMT then
      match fx_plan.limit_price with
      | none => .error "limit price required for LMT FX order"
      | some lp =>
          let tick := fxTick contract
          let limit_price := pyRound (((pyRoundInt (lp / tick) : ℤ) : ℚ) * tick) 4
          .ok { contract := contract, side := fx_plan.side, quantity := qty,
                order_type := order_type, tif := .DAY, route := .SMART,
                limit_price := some limit_price,
                rth := if prefer_rth then .RTH_ONLY else .ALL_HOURS }
    else
      .ok { contract := contract, side := fx_plan.side, quantity := qty,
            order_type := order_type, tif := .DAY, route := .SMART,
            limit_price := none,
            rth := if prefer_rth then .RTH_ONLY else .ALL_HOURS }

/-! ### `order_executor.py` -/

/-- The keyword-only parameters accepted by
`order_executor.execute_orders` (its signature after the positional `ib`;
there is no `**kwargs`).  Any other keyword raises `TypeError` at the call
site. -/
def executeOrdersKeywordParams : List String :=
  ["fx_orders", "sell_orders", "buy_orders", "fx_plan", "options",
   "available_cash", "max_leverage"]

/-! ### Claim C8 -/

/-- Claim C8 (code bug): the spec and the repository test
`test_execute_orders_retry_skips_previous_fills` require `execute_orders`
to accept an optional `previous_fills` keyword, but the signature of
`execute_orders` has no such parameter (and no `**kwargs`), so the call in
the test raises `TypeError`. -/
theorem C8_no_previous_fills_param : "previous_fills" ∉ executeOrdersKeywordParams := by
  decide

/-! ### Claim C4 -/

/-- Claim C4: for every input accepted by `compute_account_state` the
returned snapshot has `net_exposure` equal to `1` within `1e-6`, and the
function never returns a snapshot with non-positive effective equity (it
raises `Account has zero equity` instead). -/
theorem C4_net_exposure (positions prices cash_balances : List (String × ℚ))
    (cash_buffer_pct : ℚ) (snap : AccountSnapshot)
    (h : computeAccountState positions prices cash_balances cash_buffer_pct = .ok snap) :
    |snap.net_exposure - 1| ≤ 1/1000000 ∧ 0 < snap.effective_equity := by
  unfold computeAccountState at h
  cases hv : validatePositions prices positions with
  | error e => rw [hv] at h; simp only [Bind.bind, Except.bind] at h; cases h
  | ok t =>
      obtain ⟨mv, n, g⟩ := t
      rw [hv] at h
      simp only [Bind.bind, Except.bind] at h
      split at h
      · cases h
      · rename_i heff
        push_neg at heff
        cases h
        refine ⟨?_, heff⟩
        simp only
        rw [div_self (ne_of_gt heff)]
        norm_num

/-! ### Claim C6 -/

/-- Claim C6: with `prefer_market_hours` set, whenever the New York local
rendering of `now` falls outside the continuous Sunday 17:00 to Friday
17:00 window, or on a configured holiday, `plan_fx_if_needed` returns
`need_fx = false` with reason `outside market hours`, regardless of the
shortfall, funding cash, or quote supplied.  The zoneinfo conversion to
local time is taken as the input `nyNow` (see `NYTime`). -/
theorem C6_market_hours (usd_needed usd_cash funding_cash : ℚ)
    (fx_quote : Option Quote) (cfg : FXConfig) (fx_price : Option ℚ)
    (funding_currency : String) (now : ℚ) (nyNow : NYTime)
    (hpref : cfg.prefer_market_hours = true)
    (hclosed : fxWindowOpen nyNow = false ∨ nyNow.dateOrd ∈ cfg.market_holidays) :
    ∃ plan, planFxIfNeeded usd_needed usd_cash funding_cash fx_quote cfg fx_price
        funding_currency now nyNow = .ok plan ∧
      plan.need_fx = false ∧ plan.reason = .outsideMarketHours := by
  have hopen : isFxMarketOpen nyNow cfg.market_holidays = false := by
    unfold isFxMarketOpen
    rcases hclosed with hw | hh
    · split
      · rfl
      · exact hw
    · have hne : ¬ cfg.market_holidays.isEmpty := by
        cases hcm : cfg.market_holidays with
        | nil => rw [hcm] at hh; cases hh
        | cons a l => simp [List.isEmpty]
      rw [if_pos ⟨hne, hh⟩]
  refine ⟨noFxPlan (cfg.base_currency ++ "." ++ funding_currency.toUpper) .BUY cfg
    .outsideMarketHours, ?_, rfl, rfl⟩
  simp [planFxIfNeeded, hpref, hopen]

/-- Witness for C6: a concrete Saturday-noon instant with an otherwise
fundable shortfall yields the outside-market-hours no-op plan. -/
theorem C6_market_hours_witness :
    ∃ plan, planFxIfNeeded 1000 0 10000 none
        { enabled := true, base_currency := "USD", funding_currencies := ["CAD"],
          convert_mode := .just_in_time, use_mid_for_planning := true,
          min_fx_order_usd := 100, fx_buffer_bps := 0, order_type := .MKT,
          limit_slippage_bps := 5, route := "IDEALPRO", wait_for_fill_seconds := 5,
          prefer_market_hours := true, max_fx_order_usd := none,
          stale_quote_seconds := 10, market_holidays := [] }
        (some 1) "CAD" 0
        { weekday := 5, hour := 12, minute := 0, second := 0, dateOrd := 739251 } = .ok plan ∧
      plan.need_fx = false ∧ plan.reason = .outsideMarketHours :=
  C6_market_hours 1000 0 10000 none _ (some 1) "CAD" 0 _ (by decide) (Or.inl (by decide))

/-! ### Claim C10 -/

theorem planFxTail_reason_not_stale (pair : String) (side : Side) (fc : String)
    (cfg : FXConfig) (funding_cash shortfall u er0 mid : ℚ) (p : FxPlan)
    (h : planFxTail pair side fc cfg funding_cash shortfall u er0 mid = .ok p) :
    p.reason ≠ .staleFxQuote := by
  simp only [planFxTail] at h
  split at h
  · cases h
  · split at h
    · cases h; simp [noFxPlan]
    · cases h; simp

/-- Claim C10: a quote aged exactly `stale_quote_seconds` is fresh at every
public interface: `is_stale` holds iff the age strictly exceeds the
threshold, the FX engine never skips with the stale-quote reason for a
boundary-aged quote, and the limit pricer escalation trigger reduces to
the wide-spread test for a boundary-aged quote. -/
theorem C10_stale_boundary :
    (∀ (q : Quote) (now s : ℚ), is_stale q now s = true ↔ s < now - q.ts)
  ∧ (∀ (usd_needed usd_cash funding_cash : ℚ) (q : Quote) (cfg : FXConfig)
      (fx_price : Option ℚ) (fcur : String) (now : ℚ) (ny : NYTime) (plan : FxPlan),
      now - q.ts = cfg.stale_quote_seconds →
      planFxIfNeeded usd_needed usd_cash funding_cash (some q) cfg fx_price fcur
        now ny = .ok plan →
      plan.reason ≠ .staleFxQuote)
  ∧ (∀ (spread_bps : ℚ) (q : Quote) (now : ℚ) (cfg : LimitsConfig),
      now - q.ts = cfg.stale_quote_seconds →
      wideOrStale spread_bps q now cfg = decide (cfg.wide_spread_bps < spread_bps)) := by
  refine ⟨?_, ?_, ?_⟩
  · intro q now s
    simp [is_stale]
  · intro usd_needed usd_cash funding_cash q cfg fx_price fcur now ny plan hage h
    have hfresh : is_stale q now cfg.stale_quote_seconds = false := by
      simp [is_stale, hage]
    simp only [planFxIfNeeded] at h
    split at h
    · cases h; simp [noFxPlan]
    · split at h
      · cases h; simp [noFxPlan]
      · split at h
        · cases h; simp [noFxPlan]
        · split at h
          · cases h; simp [noFxPlan]
          · split at h
            · split at h
              · rename_i hst
                rw [hfresh] at hst
                simp at hst
              · split at h
                · exact planFxTail_reason_not_stale _ _ _ _ _ _ _ _ _ _ h
                · cases h; simp [noFxPlan]
            · exact planFxTail_reason_not_stale _ _ _ _ _ _ _ _ _ _ h
  · intro spread_bps q now cfg hage
    have hfresh : is_stale q now cfg.stale_quote_seconds = false := by
      simp [is_stale, hage]
    simp [wideOrStale, hfresh]

/-- Witness for C10: the boundary-aged quote (age exactly ten seconds with
threshold ten) is fresh, the concrete FX plan reason is not stale-quote,
and the concrete escalation trigger equals the wide-spread test alone. -/
theorem C10_stale_boundary_witness :
    (is_stale { bid := some 1, ask := some 2, ts := 0, last := none } 10 10 = true ↔
      (10:ℚ) < 10 - 0)
  ∧ (∀ plan, planFxIfNeeded 1000 0 10000
        (some { bid := some 1, ask := some 2, ts := 0, last := none })
        { enabled := true, base_currency := "USD", funding_currencies := ["CAD"],
          convert_mode := .just_in_time, use_mid_for_planning := true,
          min_fx_order_usd := 100, fx_buffer_bps := 0, order_type := .MKT,
          limit_slippage_bps := 5, route := "IDEALPRO", wait_for_fill_seconds := 5,
          prefer_market_hours := false, max_fx_order_usd := none,
          stale_quote_seconds := 10, market_holidays := [] }
        none "CAD" 10
        { weekday := 0, hour := 12, minute := 0, second := 0, dateOrd := 739251 } = .ok plan →
      plan.reason ≠ .staleFxQuote)
  ∧ wideOrStale 30 { bid := some 1, ask := some 2, ts := 0, last := none } 10
      { smart_limit := true, style := .spread_aware, buy_offset_frac := 1/4,
        sell_offset_frac := 1/4, max_offset_bps := 10, wide_spread_bps := 50,
        escalate_action := .cross, stale_quote_seconds := 10, use_ask_bid_cap := true } =
      decide ((50:ℚ) < 30) :=
  ⟨C10_stale_boundary.1 _ 10 10,
   fun plan h => C10_stale_boundary.2.1 1000 0 10000 _ _ none "CAD" 10 _ plan (by norm_num) h,
   C10_stale_boundary.2.2 30 _ 10 _ (by norm_num)⟩

/-- Witness for C4: a one-position account with USD cash. -/
theorem C4_net_exposure_witness :
    ∃ snap, computeAccountState [("A", 10)] [("A", 5)] [("USD", 50)] 0 = .ok snap ∧
      |snap.net_exposure - 1| ≤ 1/1000000 ∧ 0 < snap.effective_equity := by
  have h : computeAccountState [("A", 10)] [("A", 5)] [("USD", 50)] 0 =
      .ok { market_values := [("A", 50)], weights := [("A", 1/2), ("CASH", 1/2)],
            cash_by_currency := [("USD", 50)], usd_cash := 50, cad_cash := 0,
            gross_exposure := 1/2, net_exposure := 1, total_equity := 100,
            effective_equity := 100 } := by
    simp +decide [computeAccountState, validatePositions, lookupD, alookup, sortByKey,
      List.insertionSort, Bind.bind, Except.bind]
    norm_num
  exact ⟨_, h, C4_net_exposure _ _ _ _ _ h⟩

/-! ### Claim C9 -/

/-- An `FxPlan` with `need_fx = false` but a positive quantity; the
dataclass admits it, and `build_fx_order` accepts it. -/
def fxPlanNoFxPositiveQty : FxPlan :=
  { need_fx := false, pair := "USD.CAD", side := .BUY, usd_notional := 5,
    est_rate := 1, qty := 5, order_type := .MKT, limit_price := none,
    route := "IDEALPRO", wait_for_fill_seconds := 5, reason := .noUsdShortfall }

def usdCadContract : Contract :=
  { symbol := "USD", sec_type := "CASH", currency := "CAD", exchange := "IDEALPRO",
    min_tick := none }

/-- Counterexample to C9 as stated: `build_fx_order` does not raise for
every plan with `need_fx = false` - it only checks the rounded quantity, so
a no-FX plan carrying a positive quantity builds an order. -/
theorem C9_build_fx_order_cex :
    fxPlanNoFxPositiveQty.need_fx = false ∧
    buildFxOrder fxPlanNoFxPositiveQty usdCadContract true =
      .ok { contract := usdCadContract, side := .BUY, quantity := 5, order_type := .MKT,
            tif := .DAY, route := .SMART, limit_price := none, rth := .RTH_ONLY } := by
  constructor
  · rfl
  · simp +decide [buildFxOrder, pyRound, pyRoundInt, fxPlanNoFxPositiveQty]
    norm_num

/-- Claim C9 as amended: `build_fx_order` raises exactly when the rounded
quantity is non-positive (which covers every no-FX plan that
`plan_fx_if_needed` produces, since those carry `qty = 0`) or when a LMT
plan has no limit price; otherwise it returns an order whose quantity is
the plan quantity rounded to `0.01` and, for LMT, whose limit price is
aligned to the contract tick and rounded to four decimals. -/
theorem C9_build_fx_order_amended (fx_plan : FxPlan) (contract : Contract)
    (prefer_rth : Bool) :
    (pyRound fx_plan.qty 2 ≤ 0 →
      buildFxOrder fx_plan contract prefer_rth = .error "fx quantity must be positive")
  ∧ (0 < pyRound fx_plan.qty 2 → fx_plan.order_type = .LMT →
      fx_plan.limit_price = none →
      buildFxOrder fx_plan contract prefer_rth =
        .error "limit price required for LMT FX order")
  ∧ (∀ o, buildFxOrder fx_plan contract prefer_rth = .ok o →
      o.quantity = pyRound fx_plan.qty 2 ∧
      (fx_plan.order_type = .LMT →
        ∃ lp, fx_plan.limit_price = some lp ∧
          o.limit_price =
            some (pyRound (((pyRoundInt (lp / fxTick contract) : ℤ) : ℚ) *
              fxTick contract) 4)) ∧
      (fx_plan.order_type = .MKT → o.limit_price = none)) := by
  refine ⟨?_, ?_, ?_⟩
  · intro hq
    unfold buildFxOrder
    rw [if_pos hq]
  · intro hq hlmt hnone
    unfold buildFxOrder
    rw [if_neg (not_le.mpr hq), hlmt]
    simp [hnone]
  · intro o ho
    unfold buildFxOrder at ho
    cases horder : fx_plan.order_type with
    | MKT =>
        rw [horder] at ho
        simp only [reduceCtorEq, if_false] at ho
        split at ho
        · cases ho
        · cases ho
          exact ⟨rfl, fun h => absurd h (by simp), fun _ => rfl⟩
    | LMT =>
        rw [horder] at ho
        simp only [if_pos rfl] at ho
        split at ho
        · cases ho
        · cases hlp : fx_plan.limit_price with
          | none => rw [hlp] at ho; cases ho
          | some lp =>
              rw [hlp] at ho
              cases ho
              exact ⟨rfl, fun _ => ⟨lp, rfl, rfl⟩, fun h => absurd h (by simp)⟩

/-- An LMT plan with a limit price, for the C9 witness. -/
def fxPlanLmt : FxPlan :=
  { need_fx := true, pair := "USD.CAD", side := .BUY, usd_notional := 5,
    est_rate := 1, qty := 5, order_type := .LMT, limit_price := some (12345/10000),
    route := "IDEALPRO", wait_for_fill_seconds := 5, reason := .fundShortfall 5 0 }

/-- Witness for C9: the amended theorem applied to a concrete LMT plan. -/
theorem C9_build_fx_order_witness :
    ∃ o, buildFxOrder fxPlanLmt usdCadContract true = .ok o ∧
      o.quantity = pyRound fxPlanLmt.qty 2 ∧
      (fxPlanLmt.order_type = .LMT →
        ∃ lp, fxPlanLmt.limit_price = some lp ∧
          o.limit_price =
            some (pyRound (((pyRoundInt (lp / fxTick usdCadContract) : ℤ) : ℚ) *
              fxTick usdCadContract) 4)) ∧
      (fxPlanLmt.order_type = .MKT → o.limit_price = none) := by
  have h : buildFxOrder fxPlanLmt usdCadContract true =
      .ok { contract := usdCadContract, side := .BUY, quantity := 5, order_type := .LMT,
            tif := .DAY, route := .SMART, limit_price := some (12345/10000),
            rth := .RTH_ONLY } := by
    simp +decide [buildFxOrder, pyRound, pyRoundInt, fxPlanLmt, fxTick, usdCadContract]
    norm_num
  exact ⟨_, h, (C9_build_fx_order_amended fxPlanLmt usdCadContract true).2.2 _ h⟩

/-! ### Claim C7 -/

/-- A price lies on the tick grid: it is an integer multiple of the
effective tick. -/
def tickMultiple (p tick : ℚ) : Prop := ∃ n : ℤ, p = n * effectiveTick tick

theorem tickMultiple_roundToTick (x t : ℚ) : tickMultiple (roundToTick x t) t :=
  ⟨⌊x / effectiveTick t + 1/2⌋, rfl⟩

theorem tickMultiple_roundDownToTick (x t : ℚ) : tickMultiple (roundDownToTick x t) t :=
  ⟨⌊x / effectiveTick t⌋, rfl⟩

theorem tickMultiple_roundUpToTick (x t : ℚ) : tickMultiple (roundUpToTick x t) t :=
  ⟨⌈x / effectiveTick t⌉, rfl⟩

theorem tickMultiple_min {a b t : ℚ} (ha : tickMultiple a t) (hb : tickMultiple b t) :
    tickMultiple (min a b) t := by
  rcases min_cases a b with ⟨h, _⟩ | ⟨h, _⟩ <;> rw [h] <;> assumption

theorem tickMultiple_max {a b t : ℚ} (ha : tickMultiple a t) (hb : tickMultiple b t) :
    tickMultiple (max a b) t := by
  rcases max_cases a b with ⟨h, _⟩ | ⟨h, _⟩ <;> rw [h] <;> assumption

theorem tickMultiple_ite {c : Prop} [Decidable c] {x y t : ℚ}
    (hx : tickMultiple x t) (hy : tickMultiple y t) :
    tickMultiple (if c then x else y) t := by
  split <;> assumption

theorem priceLimitBuy_tick {q : Quote} {tick : ℚ} {cfg : LimitsConfig} {now p : ℚ}
    {ot : OrdType} (h : priceLimitBuy q tick cfg now = .ok (some p, ot)) :
    tickMultiple p tick := by
  unfold priceLimitBuy at h
  cases hb : q.bid with
  | none => rw [hb] at h; cases h
  | some bid =>
  cases ha : q.ask with
  | none => rw [hb, ha] at h; cases h
  | some ask =>
  rw [hb, ha] at h
  simp only [] at h
  split at h
  · cases h
  · split at h
    · cases h
    · split at h
      · split at h
        · cases h
          exact tickMultiple_ite
            (tickMultiple_min (tickMultiple_roundUpToTick _ _)
              (tickMultiple_roundDownToTick _ _))
            (tickMultiple_roundUpToTick _ _)
        · cases h
        · cases h
          exact tickMultiple_ite (tickMultiple_roundDownToTick _ _)
            (tickMultiple_roundToTick _ _)
      · cases h
        exact tickMultiple_ite (tickMultiple_roundDownToTick _ _)
          (tickMultiple_roundToTick _ _)

theorem priceLimitSell_tick {q : Quote} {tick : ℚ} {cfg : LimitsConfig} {now p : ℚ}
    {ot : OrdType} (h : priceLimitSell q tick cfg now = .ok (some p, ot)) :
    tickMultiple p tick := by
  unfold priceLimitSell at h
  cases hb : q.bid with
  | none => rw [hb] at h; cases h
  | some bid =>
  cases ha : q.ask with
  | none => rw [hb, ha] at h; cases h
  | some ask =>
  rw [hb, ha] at h
  simp only [] at h
  split at h
  · cases h
  · split at h
    · cases h
    · split at h
      · split at h
        · cases h
          exact tickMultiple_ite
            (tickMultiple_max (tickMultiple_roundDownToTick _ _)
              (tickMultiple_roundUpToTick _ _))
            (tickMultiple_roundDownToTick _ _)
        · cases h
        · cases h
          exact tickMultiple_ite (tickMultiple_roundUpToTick _ _)
            (tickMultiple_roundToTick _ _)
      · cases h
        exact tickMultiple_ite (tickMultiple_roundUpToTick _ _)
          (tickMultiple_roundToTick _ _)

/-- Claim C7 as amended: every limit price produced by the spread-aware
path of `calc_limit_price` (`smart_limit` on and `style = "spread_aware"`,
either side, any escalation outcome that yields a price) is an integer
multiple of the effective tick.  The naive fallback
(`smart_limit = false` or `style = "off"`) returns the raw ask or bid,
which need not lie on the tick grid (see the counterexample). -/
theorem C7_tick_multiple_amended (side : Side) (q : Quote) (tick now : ℚ)
    (cfg : LimitsConfig) (p : ℚ) (ot : OrdType)
    (hsmart : cfg.smart_limit = true) (hstyle : cfg.style = .spread_aware)
    (h : calcLimitPrice side q tick now cfg = .ok (some p, ot)) :
    tickMultiple p tick := by
  unfold calcLimitPrice at h
  have hcond : ¬(cfg.smart_limit = false ∨ cfg.style ≠ LimitStyle.spread_aware) := by
    simp [hsmart, hstyle]
  rw [if_neg hcond] at h
  split at h
  · exact priceLimitBuy_tick h
  · exact priceLimitSell_tick h

/-- The naive-path configuration for the C7 counterexample:
`smart_limit = false`. -/
def naiveLimitsCfg : LimitsConfig :=
  { smart_limit := false, style := .spread_aware, buy_offset_frac := 1/4,
    sell_offset_frac := 1/4, max_offset_bps := 10, wide_spread_bps := 50,
    escalate_action := .cross, stale_quote_seconds := 10, use_ask_bid_cap := true }

/-- A quote whose ask does not lie on the one-cent grid. -/
def oddAskQuote : Quote :=
  { bid := some (10001/1000), ask := some (10003/1000), ts := 0, last := none }

/-- Counterexample to C7 as stated: with `smart_limit = false` the pricer
returns the raw ask `10.003`, which is not an integer multiple of the
effective tick `0.01`. -/
theorem C7_tick_multiple_cex :
    calcLimitPrice .BUY oddAskQuote (1/100) 0 naiveLimitsCfg =
      .ok (some (10003/1000), .LMT) ∧
    ¬ tickMultiple (10003/1000) (1/100) := by
  constructor
  · simp +decide [calcLimitPrice, oddAskQuote, naiveLimitsCfg]
  · rintro ⟨n, hn⟩
    have ht : effectiveTick (1/100) = 1/100 := by norm_num [effectiveTick]
    rw [ht] at hn
    have hcast : ((10 * n : ℤ) : ℚ) = 10003 := by push_cast; linarith
    have : (10 * n : ℤ) = 10003 := by exact_mod_cast hcast
    omega

/-- The spread-aware configuration for the C7 witness. -/
def spreadAwareCfg : LimitsConfig :=
  { smart_limit := true, style := .spread_aware, buy_offset_frac := 1/4,
    sell_offset_frac := 1/4, max_offset_bps := 10, wide_spread_bps := 50,
    escalate_action := .cross, stale_quote_seconds := 10, use_ask_bid_cap := true }

def narrowQuote : Quote :=
  { bid := some 100, ask := some (10002/100), ts := 0, last := none }

/-- Witness for C7: the amended theorem applied to a concrete spread-aware
BUY, whose price lands on the grid. -/
theorem C7_tick_multiple_witness :
    calcLimitPrice .BUY narrowQuote (1/100) 0 spreadAwareCfg =
      .ok (some (5001/50), .LMT) ∧
    tickMultiple (5001/50) (1/100) := by
  have h : calcLimitPrice .BUY narrowQuote (1/100) 0 spreadAwareCfg =
      .ok (some (5001/50), .LMT) := by
    simp +decide [calcLimitPrice, priceLimitBuy, narrowQuote, spreadAwareCfg,
      wideOrStale, is_stale, to_bps, from_bps, roundToTick, roundDownToTick,
      effectiveTick]
    norm_num
  exact ⟨h, C7_tick_multiple_amended .BUY narrowQuote (1/100) 0 spreadAwareCfg
    (5001/50) .LMT rfl rfl h⟩

/-! ### Claim C5 -/

theorem keys_map_div (l : List (String × ℚ)) (c : ℚ) :
    ((l.map fun p => (p.1, p.2 / c)).map Prod.fst) = l.map Prod.fst := by
  induction l with
  | nil => rfl
  | cons hd tl ih => simp [ih]

theorem sum_map_snd_div (l : List (String × ℚ)) (c : ℚ) :
    ((l.map fun p => (p.1, p.2 / c)).map Prod.snd).sum = (l.map Prod.snd).sum / c := by
  induction l with
  | nil => simp
  | cons hd tl ih => simp only [List.map_cons, List.sum_cons, ih, add_div]

theorem nodup_keys_accumulateModel (rows : List (String × ℚ)) (mw : ℚ)
    {acc : List (String × ℚ)} (hnd : (acc.map Prod.fst).Nodup) :
    ((accumulateModel acc rows mw).map Prod.fst).Nodup := by
  induction rows generalizing acc with
  | nil => simpa [accumulateModel] using hnd
  | cons hd tl ih =>
      obtain ⟨s, w⟩ := hd
      exact ih (nodup_keys_dictAdd _ _ hnd)

theorem nodup_keys_contributionsOf (portfolios : List (String × List (String × ℚ)))
    (models : ModelsConfig) :
    ((contributionsOf portfolios models).map Prod.fst).Nodup := by
  unfold contributionsOf
  exact nodup_keys_accumulateModel _ _
    (nodup_keys_accumulateModel _ _ (nodup_keys_accumulateModel _ _ (by simp)))

/-- Claim C5: whenever `blend_targets` succeeds (nonzero combined
contributions), the returned weights are in strictly ascending symbol
order, sum to one within `1e-9` (exactly one over the rationals), and each
weight is the mix-weighted contribution for its symbol divided by the total
of all contributions. -/
theorem C5_blend_normalized (portfolios : List (String × List (String × ℚ)))
    (models : ModelsConfig) (r : BlendResult)
    (h : blendTargets portfolios models = .ok r) :
    r.weights.Pairwise (fun a b => a.1 < b.1)
  ∧ |(r.weights.map Prod.snd).sum - 1| ≤ 1/1000000000
  ∧ ∀ s w, (s, w) ∈ r.weights →
      ∃ c, alookup (contributionsOf portfolios models) s = some c ∧
        w = c / ((contributionsOf portfolios models).map Prod.snd).sum := by
  unfold blendTargets at h
  simp only [] at h
  split at h
  · cases h
  · rename_i hnet
    cases h
    have hnd : ((contributionsOf portfolios models).map Prod.fst).Nodup :=
      nodup_keys_contributionsOf portfolios models
    have hndn : (((contributionsOf portfolios models).map fun p =>
        (p.1, p.2 / ((contributionsOf portfolios models).map Prod.snd).sum)).map
          Prod.fst).Nodup := by
      rw [keys_map_div]; exact hnd
    refine ⟨sortByKey_strict hndn, ?_, ?_⟩
    · have hperm := (sortByKey_perm ((contributionsOf portfolios models).map fun p =>
        (p.1, p.2 / ((contributionsOf portfolios models).map Prod.snd).sum))).map Prod.snd
      rw [hperm.sum_eq, sum_map_snd_div,
        div_self hnet]
      norm_num
    · intro s w hm
      have hm2 := (sortByKey_perm _).mem_iff.mp hm
      obtain ⟨⟨s1, c⟩, hmem, heq⟩ := List.mem_map.mp hm2
      obtain ⟨hs, hw⟩ := Prod.mk.injEq .. |>.mp heq
      subst hs
      exact ⟨c, alookup_eq_some_of_mem hmem hnd, hw.symm⟩

/-- Witness for C5: a single SMURF portfolio with two symbols listed out of
order; the blend sorts and normalizes them. -/
theorem C5_blend_normalized_witness :
    ∃ r, blendTargets [("SMURF", [("B", 1/2), ("A", 1/2)])]
        { SMURF := 1, BADASS := 0, GLTR := 0 } = .ok r ∧
      r.weights.Pairwise (fun a b => a.1 < b.1) ∧
      |(r.weights.map Prod.snd).sum - 1| ≤ 1/1000000000 := by
  have h : blendTargets [("SMURF", [("B", 1/2), ("A", 1/2)])]
      { SMURF := 1, BADASS := 0, GLTR := 0 } =
      .ok { weights := [("A", 1/2), ("B", 1/2)], gross_exposure := 1,
            net_exposure := 1 } := by
    simp +decide [blendTargets, contributionsOf, accumulateModel, dictAdd, lookupD,
      alookup, sortByKey, List.insertionSort, List.orderedInsert, keyLE]
    norm_num
  have hc := C5_blend_normalized _ _ _ h
  exact ⟨_, h, hc.1, hc.2.1⟩

/-! ### Claim C3 -/

/-- The effective lower bound that `plan_fx_if_needed` enforces on the
pre-rounding notional: `min_fx_order_usd`, further capped by
`max_fx_order_usd` when that is set (even when it is set below the
minimum). -/
def minFxFloor (cfg : FXConfig) : ℚ :=
  match cfg.max_fx_order_usd with
  | some m => min cfg.min_fx_order_usd m
  | none => cfg.min_fx_order_usd

theorem minFxFloor_le (cfg : FXConfig) : minFxFloor cfg ≤ cfg.min_fx_order_usd := by
  unfold minFxFloor
  cases cfg.max_fx_order_usd with
  | none => exact le_rfl
  | some m => exact min_le_left _ _

theorem planFxTail_ok_bounds (pair : String) (side : Side) (fc : String)
    (cfg : FXConfig) (funding_cash shortfall u er0 mid : ℚ) (p : FxPlan)
    (h : planFxTail pair side fc cfg funding_cash shortfall u er0 mid = .ok p)
    (hfx : p.need_fx = true) :
    cfg.min_fx_order_usd ≤ funding_cash / p.est_rate ∧
    min u (funding_cash / p.est_rate) - 1/200 ≤ p.usd_notional ∧
    p.usd_notional ≤ funding_cash / p.est_rate + 1/200 := by
  simp only [planFxTail] at h
  split at h
  · cases h
  · split at h
    · cases h; simp [noFxPlan] at hfx
    · rename_i hmin
      cases h
      refine ⟨not_lt.mp hmin, ?_, ?_⟩
      · have := le_pyRound (min u (funding_cash / pyRound er0 4)) 2
        simp only []
        calc min u (funding_cash / pyRound er0 4) - 1/200
            = min u (funding_cash / pyRound er0 4) - 1 / (2 * 10 ^ 2) := by norm_num
          _ ≤ pyRound (min u (funding_cash / pyRound er0 4)) 2 := this
      · have h1 := pyRound_le (min u (funding_cash / pyRound er0 4)) 2
        have h2 : min u (funding_cash / pyRound er0 4) ≤ funding_cash / pyRound er0 4 :=
          min_le_right _ _
        simp only []
        calc pyRound (min u (funding_cash / pyRound er0 4)) 2
            ≤ min u (funding_cash / pyRound er0 4) + 1 / (2 * 10 ^ 2) := h1
          _ ≤ funding_cash / pyRound er0 4 + 1/200 := by norm_num

/-- Claim C3 as amended: for every plan returned by `plan_fx_if_needed`
with `need_fx = true`, the notional is at most
`funding_cash / est_rate + 0.01`, and it is at least
`min(min_fx_order_usd, max_fx_order_usd) - 0.005` (the half-cent slack is
the rounding of the quantity to `0.01`).  The unconditional lower bound
`usd_notional ≥ min_fx_order_usd` claimed by the spec fails when
`max_fx_order_usd` is set below `min_fx_order_usd` (see the
counterexample); when `max_fx_order_usd` is unset or at least
`min_fx_order_usd`, `minFxFloor cfg = min_fx_order_usd` and the bound
reduces to the spec bound up to rounding. -/
theorem C3_fx_notional_amended (usd_needed usd_cash funding_cash : ℚ)
    (fx_quote : Option Quote) (cfg : FXConfig) (fx_price : Option ℚ)
    (funding_currency : String) (now : ℚ) (nyNow : NYTime) (p : FxPlan)
    (h : planFxIfNeeded usd_needed usd_cash funding_cash fx_quote cfg fx_price
      funding_currency now nyNow = .ok p)
    (hfx : p.need_fx = true) :
    minFxFloor cfg - 1/200 ≤ p.usd_notional ∧
    p.usd_notional ≤ funding_cash / p.est_rate + 1/100 := by
  have final : ∀ (pair : String) (side : Side) (fc : String)
      (shortfall u er0 mid : ℚ),
      minFxFloor cfg ≤ u →
      planFxTail pair side fc cfg funding_cash shortfall u er0 mid = .ok p →
      minFxFloor cfg - 1/200 ≤ p.usd_notional ∧
      p.usd_notional ≤ funding_cash / p.est_rate + 1/100 := by
    intro pair side fc shortfall u er0 mid hu htail
    obtain ⟨hmin, hlow, hhigh⟩ :=
      planFxTail_ok_bounds pair side fc cfg funding_cash shortfall u er0 mid p htail hfx
    constructor
    · have hfloor : minFxFloor cfg ≤ min u (funding_cash / p.est_rate) :=
        le_min hu (le_trans (minFxFloor_le cfg) hmin)
      linarith
    · linarith
  simp only [planFxIfNeeded] at h
  split at h
  · cases h; simp [noFxPlan] at hfx
  · split at h
    · cases h; simp [noFxPlan] at hfx
    · split at h
      · cases h; simp [noFxPlan] at hfx
      · split at h
        · cases h; simp [noFxPlan] at hfx
        · rename_i hbuf
          have hbuf2 : cfg.min_fx_order_usd ≤
              (0 ⊔ (usd_needed - usd_cash)) * (1 + from_bps cfg.fx_buffer_bps) :=
            not_lt.mp hbuf
          have hu : minFxFloor cfg ≤
              (match cfg.max_fx_order_usd with
               | some m => min ((0 ⊔ (usd_needed - usd_cash)) *
                   (1 + from_bps cfg.fx_buffer_bps)) m
               | none => (0 ⊔ (usd_needed - usd_cash)) *
                   (1 + from_bps cfg.fx_buffer_bps)) := by
            cases hmax : cfg.max_fx_order_usd with
            | none => simpa [minFxFloor, hmax] using hbuf2
            | some m =>
                simp only [minFxFloor, hmax]
                exact min_le_min hbuf2 le_rfl
          split at h
          · split at h
            · cases h; simp [noFxPlan] at hfx
            · split at h
              · cases h; simp [noFxPlan] at hfx
              · split at h
                · exact final _ _ _ _ _ _ _ hu h
                · cases h; simp [noFxPlan] at hfx
          · exact final _ _ _ _ _ _ _ hu h

def maxBelowMinCfg : FXConfig :=
  { enabled := true, base_currency := "USD", funding_currencies := ["CAD"],
    convert_mode := .just_in_time, use_mid_for_planning := true,
    min_fx_order_usd := 100, fx_buffer_bps := 0, order_type := .MKT,
    limit_slippage_bps := 5, route := "IDEALPRO", wait_for_fill_seconds := 5,
    prefer_market_hours := false, max_fx_order_usd := some 50,
    stale_quote_seconds := 10, market_holidays := [] }

def nyMondayNoon : NYTime :=
  { weekday := 0, hour := 12, minute := 0, second := 0, dateOrd := 739251 }

/-- Counterexample to C3 as stated: with `max_fx_order_usd = 50` below
`min_fx_order_usd = 100`, a one-thousand-dollar shortfall yields a plan
with `need_fx = true` and `usd_notional = 50 < 100`. -/
theorem C3_fx_notional_cex :
    ∃ p, planFxIfNeeded 1000 0 10000 none maxBelowMinCfg (some 1) "CAD" 0
        nyMondayNoon = .ok p ∧
      p.need_fx = true ∧ p.usd_notional < maxBelowMinCfg.min_fx_order_usd := by
  have h : planFxIfNeeded 1000 0 10000 none maxBelowMinCfg (some 1) "CAD" 0
      nyMondayNoon =
      .ok { need_fx := true, pair := "USD." ++ "CAD".toUpper, side := .BUY,
            usd_notional := 50, est_rate := 1, qty := 50, order_type := .MKT,
            limit_price := none, route := "IDEALPRO", wait_for_fill_seconds := 5,
            reason := .fundShortfall 1000 0 } := by
    simp +decide [planFxIfNeeded, planFxTail, maxBelowMinCfg, nyMondayNoon,
      isFxMarketOpen, fxWindowOpen, hmsBefore17, noFxPlan, from_bps, pyRound,
      pyRoundInt]
    norm_num
  exact ⟨_, h, rfl, by norm_num [maxBelowMinCfg]⟩

def noMaxCfg : FXConfig :=
  { enabled := true, base_currency := "USD", funding_currencies := ["CAD"],
    convert_mode := .just_in_time, use_mid_for_planning := true,
    min_fx_order_usd := 100, fx_buffer_bps := 0, order_type := .MKT,
    limit_slippage_bps := 5, route := "IDEALPRO", wait_for_fill_seconds := 5,
    prefer_market_hours := false, max_fx_order_usd := none,
    stale_quote_seconds := 10, market_holidays := [] }

/-- Witness for C3: the amended bounds hold at a concrete plan with no
`max_fx_order_usd` cap. -/
theorem C3_fx_notional_witness :
    ∃ p, planFxIfNeeded 1000 0 10000 none noMaxCfg (some 1) "CAD" 0
        nyMondayNoon = .ok p ∧
      minFxFloor noMaxCfg - 1/200 ≤ p.usd_notional ∧
      p.usd_notional ≤ 10000 / p.est_rate + 1/100 := by
  have h : planFxIfNeeded 1000 0 10000 none noMaxCfg (some 1) "CAD" 0
      nyMondayNoon =
      .ok { need_fx := true, pair := "USD." ++ "CAD".toUpper, side := .BUY,
            usd_notional := 1000, est_rate := 1, qty := 1000, order_type := .MKT,
            limit_price := none, route := "IDEALPRO", wait_for_fill_seconds := 5,
            reason := .fundShortfall 1000 0 } := by
    simp +decide [planFxIfNeeded, planFxTail, noMaxCfg, nyMondayNoon,
      isFxMarketOpen, fxWindowOpen, hmsBefore17, noFxPlan, from_bps, pyRound,
      pyRoundInt]
    norm_num
  exact ⟨_, h, C3_fx_notional_amended 1000 0 10000 none noMaxCfg (some 1) "CAD" 0
    nyMondayNoon _ h rfl⟩

/-! ### Claims C1 and C2: stage lemmas for `generate_orders` -/

theorem notionalOrders_mem_min {E mo : ℚ} {l : List (String × ℚ)} {s : String}
    {v : ℚ} (h : (s, v) ∈ (notionalOrders E mo l).1) : mo ≤ |v| := by
  induction l with
  | nil => simp [notionalOrders] at h
  | cons hd tl ih =>
      obtain ⟨s1, d⟩ := hd
      simp only [notionalOrders] at h
      split at h
      · exact ih h
      · rename_i hk
        rcases List.mem_cons.mp h with heq | htl
        · cases heq; exact not_lt.mp hk
        · exact ih htl

theorem scaleBuys_mem_min {mo sc : ℚ} {l : List (String × ℚ)} {s : String}
    {v : ℚ} (h : (s, v) ∈ (scaleBuys mo sc l).1) : mo ≤ |v| := by
  induction l with
  | nil => simp [scaleBuys] at h
  | cons hd tl ih =>
      obtain ⟨s1, v1⟩ := hd
      simp only [scaleBuys] at h
      split at h
      · exact ih h
      · rename_i hk
        rcases List.mem_cons.mp h with heq | htl
        · cases heq; exact not_lt.mp hk
        · exact ih htl

theorem scaleBuys_mem_kept {mo sc : ℚ} {l : List (String × ℚ)} {s : String}
    {v : ℚ} (hm : (s, v) ∈ l) (hk : mo ≤ |v * sc|) :
    (s, v * sc) ∈ (scaleBuys mo sc l).1 := by
  induction l with
  | nil => cases hm
  | cons hd tl ih =>
      obtain ⟨s1, v1⟩ := hd
      simp only [scaleBuys]
      rcases List.mem_cons.mp hm with heq | htl
      · cases heq
        rw [if_neg (not_lt.mpr hk)]
        exact List.mem_cons_self _ _
      · split
        · exact ih htl
        · exact List.mem_cons_of_mem _ (ih htl)

theorem scaleBuys_mem_dropped {mo sc : ℚ} {l : List (String × ℚ)} {s : String}
    {v : ℚ} (hm : (s, v) ∈ l) (hd1 : |v * sc| < mo) :
    (s, DropReason.belowMinOrder |v * sc| mo) ∈ (scaleBuys mo sc l).2 := by
  induction l with
  | nil => cases hm
  | cons hd tl ih =>
      obtain ⟨s1, v1⟩ := hd
      simp only [scaleBuys]
      rcases List.mem_cons.mp hm with heq | htl
      · cases heq
        rw [if_pos hd1]
        exact List.mem_cons_self _ _
      · split
        · exact List.mem_cons_of_mem _ (ih htl)
        · exact ih htl

/-- Rounding a share count away from zero does not shrink the notional. -/
theorem abs_le_abs_outward (x : ℚ) :
    |x| ≤ |(if 0 < x then ((⌈x⌉ : ℤ) : ℚ) else ((⌊x⌋ : ℤ) : ℚ))| := by
  split
  · rename_i hx
    have hc : (0 : ℚ) < ((⌈x⌉ : ℤ) : ℚ) := by
      exact_mod_cast Int.ceil_pos.mpr hx
    rw [abs_of_pos hx, abs_of_pos hc]
    exact Int.le_ceil x
  · rename_i hx
    push_neg at hx
    have hf : ((⌊x⌋ : ℤ) : ℚ) ≤ 0 := le_trans (Int.floor_le x) hx
    rw [abs_of_nonpos hx, abs_of_nonpos hf]
    have := Int.floor_le x
    linarith

/-- The notional of the rounded share count is at least the notional of the
order value, for both the fractional and the whole-share paths. -/
theorem abs_le_shares_mul (af : Bool) (v p : ℚ) (hp : p ≠ 0) :
    |v| ≤ |(if af = true then v / p
            else if 0 < v / p then ((⌈v / p⌉ : ℤ) : ℚ)
            else ((⌊v / p⌋ : ℤ) : ℚ)) * p| := by
  cases af with
  | true =>
      simp only [if_true, eq_self_iff_true]
      rw [div_mul_cancel₀ _ hp]
  | false =>
      simp only [Bool.false_eq_true, if_false]
      calc |v| = |v / p| * |p| := by rw [← abs_mul, div_mul_cancel₀ _ hp]
        _ ≤ |(if 0 < v / p then ((⌈v / p⌉ : ℤ) : ℚ) else ((⌊v / p⌋ : ℤ) : ℚ))| * |p| :=
            mul_le_mul_of_nonneg_right (abs_le_abs_outward _) (abs_nonneg _)
        _ = _ := (abs_mul _ _).symm


theorem shareStep_some_prop {current : List (String × ℚ)} {E : ℚ} {af : Bool}
    {s : String} {v price x mo : ℚ} (hpz : price ≠ 0) (hmo : mo ≤ |v|)
    (h : shareStep current E af s v price = some x) :
    mo ≤ |x * price| ∨
    (x < 0 ∧ x = -(if af = true then lookupD current s 0 * E / price
                   else ((⌊lookupD current s 0 * E / price⌋ : ℤ) : ℚ))) := by
  have hout := abs_le_shares_mul af v price hpz
  simp only [shareStep] at h
  cases af with
  | true =>
      simp only [if_true, eq_self_iff_true, Bool.true_eq_false, false_and,
        if_false] at h ⊢
      simp only [if_true, eq_self_iff_true] at hout
      split at h
      · split at h
        · split at h
          · rename_i hmaxpos
            cases h
            exact Or.inr ⟨neg_lt_zero.mpr hmaxpos, rfl⟩
          · cases h
        · cases h
          exact Or.inl (le_trans hmo hout)
      · cases h
        exact Or.inl (le_trans hmo hout)
  | false =>
      simp only [Bool.false_eq_true, if_false, eq_self_iff_true, true_and] at h ⊢
      simp only [Bool.false_eq_true, if_false] at hout
      by_cases hpos : 0 < v / price
      · rw [if_pos hpos] at h hout
        split at h
        · cases h
        · split at h
          · split at h
            · split at h
              · rename_i hmaxpos
                cases h
                exact Or.inr ⟨neg_lt_zero.mpr hmaxpos, rfl⟩
              · cases h
            · cases h
              exact Or.inl (le_trans hmo hout)
          · cases h
            exact Or.inl (le_trans hmo hout)
      · rw [if_neg hpos] at h hout
        split at h
        · cases h
        · split at h
          · split at h
            · split at h
              · rename_i hmaxpos
                cases h
                exact Or.inr ⟨neg_lt_zero.mpr hmaxpos, rfl⟩
              · cases h
            · cases h
              exact Or.inl (le_trans hmo hout)
          · cases h
            exact Or.inl (le_trans hmo hout)

theorem shareStep_nonneg {current : List (String × ℚ)} {E : ℚ} {s : String}
    {v price : ℚ} (hppos : 0 < price) (hv : 0 ≤ v) :
    shareStep current E true s v price = some (v / price) := by
  simp only [shareStep, if_true, eq_self_iff_true, Bool.true_eq_false, false_and,
    if_false]
  rw [if_neg (not_lt.mpr (div_nonneg hv hppos.le))]

theorem toShares_cons_ok {current prices : List (String × ℚ)} {E : ℚ} {af : Bool}
    {s1 : String} {v1 : ℚ} {tl res : List (String × ℚ)}
    (h : toShares current prices E af ((s1, v1) :: tl) = .ok res) :
    ∃ r2, toShares current prices E af tl = .ok r2 ∧
      (res = r2 ∨ ∃ x, res = (s1, x) :: r2) := by
  simp only [toShares] at h
  cases hp : alookup prices s1 with
  | none => rw [hp] at h; cases h
  | some price =>
      rw [hp] at h
      dsimp only [] at h
      split at h
      · cases h
      · cases hk : shareStep current E af s1 v1 price with
        | none =>
            rw [hk] at h
            exact ⟨res, h, Or.inl rfl⟩
        | some x =>
            rw [hk] at h
            cases hr : toShares current prices E af tl with
            | error e => rw [hr] at h; cases h
            | ok r2 =>
                rw [hr] at h
                cases h
                exact ⟨r2, rfl, Or.inr ⟨x, rfl⟩⟩

theorem toShares_mem {current prices : List (String × ℚ)} {E : ℚ} {af : Bool}
    {mo : ℚ} {l res : List (String × ℚ)} {s : String} {sh : ℚ}
    (hinv : ∀ s1 v1, (s1, v1) ∈ l → mo ≤ |v1|)
    (h : toShares current prices E af l = .ok res) (hm : (s, sh) ∈ res) :
    ∃ p, alookup prices s = some p ∧
      (mo ≤ |sh * p| ∨
       (sh < 0 ∧ sh = -(if af = true then lookupD current s 0 * E / p
                        else ((⌊lookupD current s 0 * E / p⌋ : ℤ) : ℚ)))) := by
  induction l generalizing res with
  | nil =>
      simp only [toShares] at h
      cases h
      cases hm
  | cons hd tl ih =>
      obtain ⟨s1, v1⟩ := hd
      simp only [toShares] at h
      cases hp : alookup prices s1 with
      | none => rw [hp] at h; cases h
      | some price =>
          rw [hp] at h
          dsimp only [] at h
          split at h
          · cases h
          · rename_i hpz
            cases hk : shareStep current E af s1 v1 price with
            | none =>
                rw [hk] at h
                exact ih (fun a b hb => hinv a b (List.mem_cons_of_mem _ hb)) h hm
            | some x =>
                rw [hk] at h
                cases hr : toShares current prices E af tl with
                | error e => rw [hr] at h; cases h
                | ok r2 =>
                    rw [hr] at h
                    cases h
                    rcases List.mem_cons.mp hm with heq | htl
                    · cases heq
                      exact ⟨price, hp,
                        shareStep_some_prop hpz (hinv _ _ (List.mem_cons_self _ _)) hk⟩
                    · exact ih (fun a b hb => hinv a b (List.mem_cons_of_mem _ hb)) hr htl

theorem toShares_mem_nonneg_buy {current prices : List (String × ℚ)} {E : ℚ}
    {l res : List (String × ℚ)} {s : String} {v p : ℚ}
    (h : toShares current prices E true l = .ok res)
    (hm : (s, v) ∈ l) (hp : alookup prices s = some p) (hppos : 0 < p)
    (hv : 0 ≤ v) : (s, v / p) ∈ res := by
  induction l generalizing res with
  | nil => cases hm
  | cons hd tl ih =>
      obtain ⟨s1, v1⟩ := hd
      rcases List.mem_cons.mp hm with heq | htl
      · cases heq
        simp only [toShares] at h
        rw [hp] at h
        dsimp only [] at h
        rw [if_neg hppos.ne'] at h
        rw [shareStep_nonneg hppos hv] at h
        cases hr : toShares current prices E true tl with
        | error e => rw [hr] at h; cases h
        | ok r2 =>
            rw [hr] at h
            cases h
            exact List.mem_cons_self _ _
      · obtain ⟨r2, hr2, hcase⟩ := toShares_cons_ok h
        rcases hcase with rfl | ⟨x, rfl⟩
        · exact ih hr2 htl
        · exact List.mem_cons_of_mem _ (ih hr2 htl)

/-- Claim C1 as amended: every symbol emitted by `generate_orders` has
notional `|shares * price| ≥ min_order`, except that a sell capped at the
currently held shares (`max_sell`, floored to whole shares when fractional
trading is off) may fall below `min_order`; every emitted order is one or
the other.  The unrestricted claim fails on capped sells (see the
counterexample). -/
theorem C1_min_order_amended (targets current prices : List (String × ℚ))
    (E : ℚ) (bands : Bands) (mo ml cbp mbp ptb : ℚ) (af : Bool)
    (tm : TriggerMode) (plan : OrderPlan) (s : String) (sh : ℚ)
    (h : generateOrders targets current prices E bands mo ml cbp mbp af tm ptb =
      .ok plan)
    (hm : (s, sh) ∈ plan.orders) :
    ∃ p, alookup prices s = some p ∧
      (mo ≤ |sh * p| ∨
       (sh < 0 ∧ sh = -(if af = true then lookupD current s 0 * E / p
                        else ((⌊lookupD current s 0 * E / p⌋ : ℤ) : ℚ)))) := by
  unfold generateOrders at h
  simp only [] at h
  split at h
  · cases h
    exact absurd hm (by simp)
  · split at h
    · cases h
      exact absurd hm (by simp)
    · split at h
      · cases h
      · rename_i shares heq
        cases h
        refine toShares_mem ?_ heq hm
        intro s1 v1 hmem
        rcases List.mem_append.mp hmem with hs | hb
        · exact notionalOrders_mem_min (List.mem_of_mem_filter hs)
        · exact scaleBuys_mem_min hb

/-- Claim C2: after sells are applied, the buying capacity is
`available = min(max_leverage * equity - gross - maint_buffer,
cash - cash_buffer)` with the cash bound only when `cash_buffer_pct > 0`
(`availableFunds`); when the buy notionals sum to more than this
capacity, every buy is scaled by `max(available, 0) / total`, a scaled buy
below `min_order` is dropped with a recorded reason, and a surviving buy
is emitted at the scaled notional (`scaled / price` shares on the
fractional path). -/
theorem C2_buy_scaling (targets current prices : List (String × ℚ)) (E : ℚ)
    (bands : Bands) (mo ml cbp mbp ptb : ℚ) (tm : TriggerMode)
    (plan : OrderPlan) (s : String) (v av tb sc : ℚ)
    (h : generateOrders targets current prices E bands mo ml cbp mbp true tm ptb =
      .ok plan)
    (hbuy : (s, v) ∈ buysOf (ordersValue targets current E bands mo tm ptb).1)
    (hav : av = availableFunds current E
      (ordersValue targets current E bands mo tm ptb).1 ml cbp mbp)
    (htb : tb = ((buysOf (ordersValue targets current E bands mo tm ptb).1).map
      Prod.snd).sum)
    (hsc : sc = max av 0 / tb)
    (hexceed : av < tb) :
    (|v * sc| < mo →
      (s, DropReason.belowMinOrder |v * sc| mo) ∈ plan.dropped)
  ∧ (mo ≤ |v * sc| → ∀ p, alookup prices s = some p → 0 < p →
      (s, v * sc / p) ∈ plan.orders) := by
  subst hav htb hsc
  have hvpos : 0 < v := by
    have := (List.mem_filter.mp hbuy).2
    exact of_decide_eq_true this
  have htbpos : (0:ℚ) <
      ((buysOf (ordersValue targets current E bands mo tm ptb).1).map Prod.snd).sum := by
    apply List.sum_pos
    · intro x hx
      obtain ⟨pr, hpr, rfl⟩ := List.mem_map.mp hx
      exact of_decide_eq_true (List.mem_filter.mp hpr).2
    · intro hnil
      rw [List.map_eq_nil_iff] at hnil
      rw [hnil] at hbuy
      cases hbuy
  have hovne : (ordersValue targets current E bands mo tm ptb).1 ≠ [] := by
    intro hnil
    have := List.mem_of_mem_filter hbuy
    rw [hnil] at this
    cases this
  unfold generateOrders at h
  simp only [] at h
  rw [if_neg hovne] at h
  have hscale : buyScale current E (ordersValue targets current E bands mo tm ptb).1
      ml cbp mbp =
      max (availableFunds current E (ordersValue targets current E bands mo tm ptb).1
        ml cbp mbp) 0 /
      ((buysOf (ordersValue targets current E bands mo tm ptb).1).map Prod.snd).sum := by
    unfold buyScale
    simp only []
    rw [if_pos ⟨hexceed, htbpos⟩]
  rw [hscale] at h
  constructor
  · intro hlt
    have hdmem := scaleBuys_mem_dropped hbuy hlt
    split at h
    · cases h
      exact List.mem_append_right _ hdmem
    · split at h
      · cases h
      · cases h
        exact List.mem_append_right _ hdmem
  · intro hge p hp hppos
    have hkept := scaleBuys_mem_kept hbuy hge
    have hov2 : (s, v * (max (availableFunds current E
        (ordersValue targets current E bands mo tm ptb).1 ml cbp mbp) 0 /
        ((buysOf (ordersValue targets current E bands mo tm ptb).1).map Prod.snd).sum)) ∈
        sellsOf (ordersValue targets current E bands mo tm ptb).1 ++
        (scaleBuys mo (max (availableFunds current E
          (ordersValue targets current E bands mo tm ptb).1 ml cbp mbp) 0 /
          ((buysOf (ordersValue targets current E bands mo tm ptb).1).map Prod.snd).sum)
          (buysOf (ordersValue targets current E bands mo tm ptb).1)).1 :=
      List.mem_append_right _ hkept
    have hscnn : 0 ≤ v * (max (availableFunds current E
        (ordersValue targets current E bands mo tm ptb).1 ml cbp mbp) 0 /
        ((buysOf (ordersValue targets current E bands mo tm ptb).1).map Prod.snd).sum) := by
      apply mul_nonneg hvpos.le
      exact div_nonneg (le_max_right _ _) htbpos.le
    split at h
    · rename_i hempty
      rw [hempty] at hov2
      cases hov2
    · split at h
      · cases h
      · rename_i shares heq
        cases h
        exact toShares_mem_nonneg_buy heq hov2 hp hppos hscnn

/-- Counterexample to C1 as stated: a short target makes the sell cap bind,
and the emitted sell of ten shares has notional `100 < min_order = 200`
even though the uncapped order passed the minimum-order filter. -/
theorem C1_min_order_cex :
    generateOrders [("A", -2/5)] [("A", 1/10), ("CASH", 9/10)] [("A", 10)] 1000
      (.scalar 0) 200 1 0 0 true .per_holding 0 =
      .ok { orders := [("A", -10)], dropped := [] } ∧
    |(-10 : ℚ) * 10| < 200 := by
  constructor
  · norm_num +decide [generateOrders, ordersValue, notionalOrders, actionableDiffs,
      getBand, lookupD, alookup, sellsOf, buysOf, buyScale, availableFunds,
      cashAfterSells, grossAfterSells, scaleBuys, toShares, shareStep, pyRound,
      pyRoundInt, List.filterMap_cons, List.filterMap_nil, List.filter_cons,
      List.filter_nil, List.dedup_cons_of_mem, List.dedup_cons_of_not_mem,
      List.dedup_nil, Option.getD]
  · norm_num

/-- Witness for C1: an uncapped buy emitted by a concrete run satisfies
the minimum-order bound. -/
theorem C1_min_order_witness :
    ∃ p, alookup [("A", 10)] "A" = some p ∧
      ((100:ℚ) ≤ |(50:ℚ) * p| ∨
       ((50:ℚ) < 0 ∧ (50:ℚ) = -(if true = true
          then lookupD [("CASH", 1)] "A" 0 * 1000 / p
          else ((⌊lookupD [("CASH", 1)] "A" 0 * 1000 / p⌋ : ℤ) : ℚ)))) := by
  have h : generateOrders [("A", 1/2)] [("CASH", 1)] [("A", 10)] 1000
      (.scalar 0) 100 1 0 0 true .per_holding 0 =
      .ok { orders := [("A", 50)], dropped := [] } := by
    norm_num +decide [generateOrders, ordersValue, notionalOrders, actionableDiffs,
      getBand, lookupD, alookup, sellsOf, buysOf, buyScale, availableFunds,
      cashAfterSells, grossAfterSells, scaleBuys, toShares, shareStep, pyRound,
      pyRoundInt, List.filterMap_cons, List.filterMap_nil, List.filter_cons,
      List.filter_nil, List.dedup_cons_of_mem, List.dedup_cons_of_not_mem,
      List.dedup_nil, Option.getD]
  exact C1_min_order_amended [("A", 1/2)] [("CASH", 1)] [("A", 10)] 1000 (.scalar 0)
    100 1 0 0 0 true .per_holding { orders := [("A", 50)], dropped := [] } "A" 50
    h (by simp)

/-- Witness for C2: a concrete run where the buys exceed the capacity
(`available = 500 < 1000`), so the single buy is halved to notional `500`
and emitted as fifty shares. -/
theorem C2_buy_scaling_witness :
    (|(1000:ℚ) * (1/2)| < 100 →
      ("A", DropReason.belowMinOrder |(1000:ℚ) * (1/2)| 100) ∈
        (OrderPlan.mk [("A", 50)] []).dropped)
  ∧ ((100:ℚ) ≤ |(1000:ℚ) * (1/2)| → ∀ p, alookup [("A", 10)] "A" = some p →
      0 < p → ("A", (1000:ℚ) * (1/2) / p) ∈ (OrderPlan.mk [("A", 50)] []).orders) := by
  refine C2_buy_scaling [("A", 1)] [("CASH", 1)] [("A", 10)] 1000 (.scalar 0) 100 1
    0 50 0 .per_holding ⟨[("A", 50)], []⟩ "A" 1000 500 1000 (1/2) ?_ ?_ ?_ ?_ ?_ ?_
  · norm_num +decide [generateOrders, ordersValue, notionalOrders, actionableDiffs,
      getBand, lookupD, alookup, sellsOf, buysOf, buyScale, availableFunds,
      cashAfterSells, grossAfterSells, scaleBuys, toShares, shareStep, pyRound,
      pyRoundInt, List.filterMap_cons, List.filterMap_nil, List.filter_cons,
      List.filter_nil, List.dedup_cons_of_mem, List.dedup_cons_of_not_mem,
      List.dedup_nil, Option.getD]
  · norm_num +decide [ordersValue, notionalOrders, actionableDiffs, getBand, lookupD,
      alookup, buysOf, pyRound, pyRoundInt, List.filterMap_cons, List.filterMap_nil,
      List.filter_cons, List.filter_nil, List.dedup_cons_of_mem,
      List.dedup_cons_of_not_mem, List.dedup_nil, Option.getD]
  · norm_num +decide [ordersValue, notionalOrders, actionableDiffs, getBand, lookupD,
      alookup, sellsOf, buysOf, availableFunds, cashAfterSells, grossAfterSells,
      pyRound, pyRoundInt, List.filterMap_cons, List.filterMap_nil, List.filter_cons,
      List.filter_nil, List.dedup_cons_of_mem, List.dedup_cons_of_not_mem,
      List.dedup_nil, Option.getD]
  · norm_num +decide [ordersValue, notionalOrders, actionableDiffs, getBand, lookupD,
      alookup, buysOf, pyRound, pyRoundInt, List.filterMap_cons, List.filterMap_nil,
      List.filter_cons, List.filter_nil, List.dedup_cons_of_mem,
      List.dedup_cons_of_not_mem, List.dedup_nil, Option.getD]
  · norm_num
  · norm_num

end IBTrade
